import Mathlib

/-!
Verification of the core of the Encap Oven Temperature Profile dashboard
(`app.py`): the measurement-to-dataset index, the date-range query pipeline,
and the export serializers, modelled as a shallow embedding.

A dataset (pandas `DataFrame`) is a list of column names together with rows of
cells aligned by position.  Cells carry the scalar kinds the app manipulates:
integers, timestamps (already-parsed date/time values), and raw text.
-/

namespace EncapOven

/-- A timestamp: a calendar day (day number) plus a time-of-day component.
`pandas.Timestamp.date()` corresponds to dropping `tod` and keeping `day`. -/
structure Timestamp where
  day : Int
  tod : Nat
deriving DecidableEq, Repr

/-- A scalar cell of a table: a number, a parsed timestamp, or raw text
(raw text models values `pd.to_datetime` cannot parse). -/
inductive Cell where
  | num (v : Int)
  | ts (t : Timestamp)
  | str (s : String)
deriving DecidableEq, Repr

/-- A `pandas.DataFrame`: column names plus rows of cells in column order. -/
structure DataFrame where
  cols : List String
  rows : List (List Cell)
deriving DecidableEq, Repr

/-! ## Python dict model

`measurement_map` is a Python `dict`.  We model it as an association list:
assignment `d[k] = v` replaces the value in place when the key is present and
appends otherwise (Python dicts keep insertion order and update in place). -/

/-- Python dict assignment `m[k] = v`: replace in place if `k` is a key,
otherwise append the new binding. -/
def dictInsert (m : List (String × String)) (k v : String) : List (String × String) :=
  if m.any (fun p => p.1 = k) then m.map (fun p => if p.1 = k then (k, v) else p)
  else m ++ [(k, v)]

/-- Python dict lookup `m[k]` (as an `Option`): value of the first binding of `k`. -/
def dictFind (m : List (String × String)) (k : String) : Option String :=
  (m.find? (fun p => p.1 = k)).map (fun p => p.2)

theorem find?_map_replace_of_ne (m : List (String × String)) (k v c : String)
    (hck : c ≠ k) :
    (m.map (fun p => if p.1 = k then (k, v) else p)).find? (fun p => p.1 = c) =
      m.find? (fun p => p.1 = c) := by
  induction m with
  | nil => rfl
  | cons hd tl ih =>
    by_cases hk : hd.1 = k
    · have hkc : ¬(k = c) := fun h => hck (Eq.symm h)
      have hdc : ¬(hd.1 = c) := by rw [hk]; exact hkc
      simp only [List.map_cons, List.find?, if_pos hk]
      simp [hkc, hdc, ih]
    · simp only [List.map_cons, List.find?, if_neg hk]
      by_cases hc : hd.1 = c
      · simp [hc]
      · simp [hc, ih]

theorem find?_map_replace_of_any (m : List (String × String)) (k v : String)
    (h : m.any (fun p => p.1 = k) = true) :
    (m.map (fun p => if p.1 = k then (k, v) else p)).find? (fun p => p.1 = k) =
      some (k, v) := by
  induction m with
  | nil => simp at h
  | cons hd tl ih =>
    by_cases hk : hd.1 = k
    · simp [List.find?, if_pos hk]
    · simp only [List.any_cons, Bool.or_eq_true, decide_eq_true_eq] at h
      rcases h with h | h
      · exact absurd h hk
      · simp [hk, ih h]

/-- Lookup after dict assignment: the assigned key maps to the new value and
every other key is untouched. -/
theorem dictFind_insert (m : List (String × String)) (k v c : String) :
    dictFind (dictInsert m k v) c = if c = k then some v else dictFind m c := by
  unfold dictInsert dictFind
  by_cases hany : m.any (fun p => p.1 = k) = true
  · rw [if_pos hany]
    by_cases hck : c = k
    · subst hck
      rw [find?_map_replace_of_any m c v hany]
      simp
    · rw [find?_map_replace_of_ne m k v c hck, if_neg hck]
  · rw [if_neg hany]
    rw [List.find?_append]
    by_cases hck : c = k
    · subst hck
      have hnone : m.find? (fun p => p.1 = c) = none := by
        rw [List.find?_eq_none]
        intro x hx hpx
        exact hany (List.any_eq_true.mpr ⟨x, hx, hpx⟩)
      simp [hnone, List.find?]
    · have hkc : ¬(k = c) := fun h => hck (Eq.symm h)
      have h1 : List.find? (fun p => p.1 = c) [(k, v)] = none := by
        simp [List.find?, hkc]
      simp [h1, hck]

/-! ## Measurement index construction (app.py lines 155-161)

```python
measurement_map = {}
exclude_cols = ["DATETIME", "CW", "DATE", "LCL", "UCL"]
for name, df in datasets.items():
    for col in df.columns:
        if col not in exclude_cols:
            measurement_map[col] = name
```
-/

/-- The reserved column names excluded from the measurement index. -/
def exclude_cols : List String := ["DATETIME", "CW", "DATE", "LCL", "UCL"]

/-- Body of the inner loop: skip reserved columns, otherwise assign
`measurement_map[col] = name`. -/
def insertMeasurement (name : String) (m : List (String × String)) (col : String) :
    List (String × String) :=
  if col ∈ exclude_cols then m else dictInsert m col name

/-- Body of the outer loop: process one dataset's columns in order. -/
def insertDataset (m : List (String × String)) (nd : String × DataFrame) :
    List (String × String) :=
  nd.2.cols.foldl (insertMeasurement nd.1) m

/-- The measurement index built over the datasets in load order. -/
def measurement_map (datasets : List (String × DataFrame)) : List (String × String) :=
  datasets.foldl insertDataset []

/-- Specification function: the name of the last dataset in the list whose
schema contains the (non-reserved) column `c`. -/
def lastOwner (c : String) : List (String × DataFrame) → Option String
  | [] => none
  | nd :: rest =>
    match lastOwner c rest with
    | some n => some n
    | none => if c ∈ nd.2.cols ∧ c ∉ exclude_cols then some nd.1 else none

theorem dictFind_foldl_cols (name : String) (cols : List String)
    (m : List (String × String)) (c : String) :
    dictFind (cols.foldl (insertMeasurement name) m) c =
      if c ∈ cols ∧ c ∉ exclude_cols then some name else dictFind m c := by
  induction cols generalizing m with
  | nil => simp
  | cons col rest ih =>
    rw [List.foldl_cons, ih]
    by_cases hrest : c ∈ rest ∧ c ∉ exclude_cols
    · rw [if_pos hrest, if_pos ⟨List.mem_cons_of_mem col hrest.1, hrest.2⟩]
    · rw [if_neg hrest]
      unfold insertMeasurement
      by_cases hexc : col ∈ exclude_cols
      · rw [if_pos hexc]
        by_cases hc : c = col
        · subst hc
          rw [if_neg (fun h => h.2 hexc)]
        · have : (c ∈ col :: rest ∧ c ∉ exclude_cols) ↔ (c ∈ rest ∧ c ∉ exclude_cols) := by
            simp [List.mem_cons, hc]
          rw [if_neg (fun h => hrest (this.mp h))]
      · rw [if_neg hexc, dictFind_insert]
        by_cases hc : c = col
        · subst hc
          rw [if_pos rfl, if_pos ⟨List.mem_cons_self c rest, hexc⟩]
        · rw [if_neg hc]
          have : (c ∈ col :: rest ∧ c ∉ exclude_cols) ↔ (c ∈ rest ∧ c ∉ exclude_cols) := by
            simp [List.mem_cons, hc]
          rw [if_neg (fun h => hrest (this.mp h))]

theorem dictFind_foldl_datasets (datasets : List (String × DataFrame))
    (m : List (String × String)) (c : String) :
    dictFind (datasets.foldl insertDataset m) c =
      match lastOwner c datasets with
      | some n => some n
      | none => dictFind m c := by
  induction datasets generalizing m with
  | nil => rfl
  | cons nd rest ih =>
    rw [List.foldl_cons, ih]
    cases hrest : lastOwner c rest with
    | some n => simp [lastOwner, hrest]
    | none =>
      simp only [lastOwner, hrest]
      unfold insertDataset
      rw [dictFind_foldl_cols]
      by_cases hin : c ∈ nd.2.cols ∧ c ∉ exclude_cols
      · simp [hin]
      · simp [hin]

/-- Master characterization: looking up `c` in the measurement index yields
the name of the last-loaded dataset whose schema contains `c` (as a
non-reserved column), and `none` when no such dataset exists. -/
theorem measurement_map_spec (datasets : List (String × DataFrame)) (c : String) :
    dictFind (measurement_map datasets) c = lastOwner c datasets := by
  unfold measurement_map
  rw [dictFind_foldl_datasets]
  cases lastOwner c datasets <;> rfl

/-! ## Range query pipeline (app.py lines 174-199)

```python
dataset_name = measurement_map[selected_measures[0]]
df = datasets[dataset_name].copy()
df["DATETIME"] = pd.to_datetime(df["DATETIME"])
df["DATE"] = pd.to_datetime(df["DATE"])
...
df = df[(df["DATE"].dt.date >= start_date) & (df["DATE"].dt.date <= end_date)]
```

Failures (`KeyError`, unparseable values under `pd.to_datetime(errors='raise')`,
`.dt` on a non-datetime column) are modelled with `Except`.
-/

/-- Index of the first column named `c` (pandas column selection by label). -/
def findColIdx (c : String) : List String → Option Nat
  | [] => none
  | x :: xs => if x = c then some 0 else (findColIdx c xs).map (fun i => i + 1)

/-- `pd.to_datetime` on one value: timestamps pass through, numbers are read
as epoch seconds, and raw text that is not a date fails (`errors='raise'`). -/
def to_datetimeCell : Cell → Except String Timestamp
  | .ts t => .ok t
  | .num v => .ok ⟨v.ediv 86400, (v.emod 86400).toNat⟩
  | .str _ => .error "to_datetime: unparseable value"

/-- `pd.to_datetime` on a whole column: fails if any value fails. -/
def to_datetimeCol : List Cell → Except String (List Timestamp)
  | [] => .ok []
  | c :: rest =>
    match to_datetimeCell c, to_datetimeCol rest with
    | .ok t, .ok ts => .ok (t :: ts)
    | .error e, _ => .error e
    | _, .error e => .error e

/-- The cell of row `r` in column position `i`. -/
def cellAt (i : Nat) (r : List Cell) : Cell :=
  r.getD i (.str "")

/-- `df[c] = pd.to_datetime(df[c])`: coerce column `c` of every row to a
timestamp, failing if the column is missing or any value is unparseable. -/
def coerceCol (df : DataFrame) (c : String) : Except String DataFrame :=
  match findColIdx c df.cols with
  | none => .error "KeyError: missing column"
  | some i =>
    match to_datetimeCol (df.rows.map (cellAt i)) with
    | .error e => .error e
    | .ok ts => .ok ⟨df.cols, List.zipWith (fun r t => r.set i (.ts t)) df.rows ts⟩

/-- `.dt.date` on a column: the calendar day of every cell; fails on a cell
that is not a datetime (pandas raises on a non-datetimelike column). -/
def dtDates : List Cell → Except String (List Int)
  | [] => .ok []
  | .ts t :: rest =>
    match dtDates rest with
    | .ok ds => .ok (t.day :: ds)
    | .error e => .error e
  | .num _ :: _ => .error "dt accessor: not datetimelike"
  | .str _ :: _ => .error "dt accessor: not datetimelike"

/-- Boolean-mask row selection `df[mask]`: keep the rows whose mask entry is
`true`, in source order. -/
def maskFilter : List (List Cell) → List Bool → List (List Cell)
  | _, [] => []
  | [], _ :: _ => []
  | r :: rs, b :: bs => if b then r :: maskFilter rs bs else maskFilter rs bs

/-- The date-range filter of line 199: build the mask
`(df["DATE"].dt.date >= start) & (df["DATE"].dt.date <= end)` and select. -/
def filterByDate (df : DataFrame) (s e : Int) : Except String DataFrame :=
  match findColIdx "DATE" df.cols with
  | none => .error "KeyError: DATE"
  | some i =>
    match dtDates (df.rows.map (cellAt i)) with
    | .error msg => .error msg
    | .ok days =>
      .ok ⟨df.cols, maskFilter df.rows (days.map (fun d => decide (s ≤ d) && decide (d ≤ e)))⟩

/-- Lookup of a dataset by name in the loaded collection (`datasets[name]`). -/
def storeFind (datasets : List (String × DataFrame)) (name : String) : Option DataFrame :=
  (datasets.find? (fun p => p.1 = name)).map (fun p => p.2)

/-- The full query path: resolve the first selected measurement through the
measurement index, fetch the owning dataset, copy it, coerce `DATETIME` and
`DATE`, and filter by the inclusive calendar-date range. -/
def runQuery (datasets : List (String × DataFrame)) (selected : List String)
    (s e : Int) : Except String DataFrame :=
  match selected with
  | [] => .error "no measurement selected"
  | m :: _ =>
    match dictFind (measurement_map datasets) m with
    | none => .error "KeyError: measurement"
    | some name =>
      match storeFind datasets name with
      | none => .error "KeyError: dataset"
      | some df =>
        match coerceCol df "DATETIME" with
        | .error e => .error e
        | .ok df1 =>
          match coerceCol df1 "DATE" with
          | .error e => .error e
          | .ok df2 => filterByDate df2 s e

/-! ## Export serializers (app.py lines 234-251) -/

/-- Content of the workbook produced by `to_excel`: the fixed sheet name, a
header row of column names (`index=False` drops the index column), and the
data rows. -/
structure Workbook where
  sheetName : String
  header : List String
  data : List (List Cell)
deriving DecidableEq, Repr

/-- `to_excel(df)`: single sheet "FilteredData", header plus rows, no index. -/
def to_excel (df : DataFrame) : Workbook :=
  ⟨"FilteredData", df.cols, df.rows⟩

/-- The decimal digit character for `n % 10`. -/
def digitChar (n : Nat) : Char :=
  Char.ofNat (48 + n % 10)

/-- Decimal rendering of a natural number. -/
def renderNat (n : Nat) : List Char :=
  if _h : n < 10 then [digitChar n] else renderNat (n / 10) ++ [digitChar n]
decreasing_by exact Nat.div_lt_self (by omega) (by omega)

/-- Decimal rendering of an integer (with a leading minus sign). -/
def renderInt (v : Int) : List Char :=
  if v < 0 then '-' :: renderNat v.natAbs else renderNat v.natAbs

/-- Text rendering of a timestamp: day number, a space, time-of-day. -/
def renderTimestamp (t : Timestamp) : List Char :=
  renderInt t.day ++ ' ' :: renderNat t.tod

/-- The string form of a cell as written into delimited-text output. -/
def renderCell : Cell → List Char
  | .num v => renderInt v
  | .ts t => renderTimestamp t
  | .str s => s.data

/-- Minimal-quoting test (the csv module QUOTE_MINIMAL rule): a field is
quoted iff it contains the separator, the quote char, or a line break. -/
def needsQuote (f : List Char) : Bool :=
  f.any (fun ch => ch = ',' || ch = '"' || ch = '\n' || ch = '\r')

/-- Double every quote character (csv quote escaping). -/
def escapeQuotes : List Char → List Char
  | [] => []
  | ch :: rest =>
    if ch = '"' then '"' :: '"' :: escapeQuotes rest else ch :: escapeQuotes rest

/-- A field as emitted: quoted with doubled inner quotes when needed. -/
def quoteMinimal (f : List Char) : List Char :=
  if needsQuote f then '"' :: (escapeQuotes f ++ ['"']) else f

/-- Join fields with the comma separator. -/
def intercalateComma : List (List Char) → List Char
  | [] => []
  | [f] => f
  | f :: g :: rest => f ++ ',' :: intercalateComma (g :: rest)

/-- One output line: the fields, minimally quoted, comma-separated. -/
def csvLine (fs : List (List Char)) : List Char :=
  intercalateComma (fs.map quoteMinimal)

/-- `df.to_csv(index=False)`: a header line of column names then one line per
row, each line terminated by a newline, no index column. -/
def to_csv (df : DataFrame) : List Char :=
  (csvLine (df.cols.map String.data) ++ ['\n']) ++
    (df.rows.map (fun r => csvLine (r.map renderCell) ++ ['\n'])).flatten

/-! ## A csv reader, to state the round-trip property -/

/-- Split a character sequence at every occurrence of `c`. -/
def splitOnChar (c : Char) : List Char → List (List Char)
  | [] => [[]]
  | x :: xs =>
    if x = c then [] :: splitOnChar c xs
    else
      match splitOnChar c xs with
      | [] => [[x]]
      | f :: fs => (x :: f) :: fs

/-- Field scanner for one record: `false` is the unquoted state, `true` the
in-quotes state; `acc` holds the current field reversed. -/
def parseFieldsAux : Bool → List Char → List Char → List (List Char)
  | _, [], acc => [acc.reverse]
  | false, ch :: rest, acc =>
    if ch = ',' then acc.reverse :: parseFieldsAux false rest []
    else if ch = '"' then parseFieldsAux true rest acc
    else parseFieldsAux false rest (ch :: acc)
  | true, ch :: rest, acc =>
    if ch = '"' then
      match _h : rest with
      | '"' :: rest2 => parseFieldsAux true rest2 ('"' :: acc)
      | _ => parseFieldsAux false rest acc
    else parseFieldsAux true rest (ch :: acc)
termination_by _ l _ => l.length
decreasing_by all_goals simp_all <;> omega

/-- Parse one record line into its fields. -/
def parseLine (l : List Char) : List (List Char) :=
  parseFieldsAux false l []

/-- Parse a newline-terminated csv text into its records (the split leaves a
final empty chunk after the trailing newline, which is dropped). -/
def parseCSV (cs : List Char) : List (List (List Char)) :=
  ((splitOnChar '\n' cs).dropLast).map parseLine

/-! ## Lemmas about the date filter -/

/-- The selection predicate of line 199 on one row: the `DATE` cell (at column
position `i`) is a timestamp whose calendar day lies in `[s, e]`; the
time-of-day component plays no part. -/
def rowInRange (i : Nat) (s e : Int) (r : List Cell) : Bool :=
  match cellAt i r with
  | .ts t => decide (s ≤ t.day) && decide (t.day ≤ e)
  | .num _ => false
  | .str _ => false

theorem maskFilter_map (p : List Cell → Bool) (rows : List (List Cell)) :
    maskFilter rows (rows.map p) = rows.filter p := by
  induction rows with
  | nil => rfl
  | cons r rs ih =>
    simp only [List.map_cons, maskFilter, List.filter_cons]
    cases hp : p r <;> simp [hp, ih]

theorem dtDates_ok (cells : List Cell) (days : List Int)
    (h : dtDates cells = .ok days) :
    (∀ c ∈ cells, ∃ t, c = Cell.ts t) ∧
      days = cells.map (fun c => match c with | .ts t => t.day | _ => 0) := by
  induction cells generalizing days with
  | nil =>
    simp only [dtDates] at h
    cases h
    exact ⟨by simp, rfl⟩
  | cons c rest ih =>
    cases c with
    | ts t =>
      simp only [dtDates] at h
      cases hrest : dtDates rest with
      | ok ds =>
        rw [hrest] at h
        cases h
        rcases ih ds hrest with ⟨hall, hds⟩
        refine ⟨?_, by simp [hds]⟩
        intro c hc
        rcases List.mem_cons.mp hc with hc | hc
        · exact ⟨t, hc⟩
        · exact hall c hc
      | error msg => rw [hrest] at h; cases h
    | num v => simp [dtDates] at h
    | str s => simp [dtDates] at h

theorem filterByDate_ok (df view : DataFrame) (s e : Int) (i : Nat)
    (hq : filterByDate df s e = .ok view)
    (hi : findColIdx "DATE" df.cols = some i) :
    view.cols = df.cols ∧ view.rows = df.rows.filter (rowInRange i s e) := by
  unfold filterByDate at hq
  split at hq
  · exact absurd hq (by simp)
  · rename_i i0 hidx
    rw [hi] at hidx
    cases hidx
    split at hq
    · exact absurd hq (by simp)
    · rename_i days hdt
      have hview : view = ⟨df.cols,
          maskFilter df.rows (days.map (fun d => decide (s ≤ d) && decide (d ≤ e)))⟩ := by
        cases hq
        rfl
      subst hview
      rcases dtDates_ok _ _ hdt with ⟨hall, hdays⟩
      refine ⟨rfl, ?_⟩
      show maskFilter df.rows (days.map _) = _
      have hmask : days.map (fun d => decide (s ≤ d) && decide (d ≤ e)) =
          df.rows.map (rowInRange i s e) := by
        rw [hdays, List.map_map, List.map_map]
        apply List.map_congr_left
        intro r hr
        rcases hall (cellAt i r) (List.mem_map_of_mem (cellAt i) hr) with ⟨t, ht⟩
        simp [Function.comp, rowInRange, ht]
      rw [hmask, maskFilter_map]

/-- `findColIdx` finds an index carrying the requested column name. -/
theorem findColIdx_some (c : String) (cols : List String) (i : Nat)
    (h : findColIdx c cols = some i) : cols[i]? = some c := by
  induction cols generalizing i with
  | nil => cases h
  | cons x xs ih =>
    by_cases hx : x = c
    · simp only [findColIdx, if_pos hx] at h
      cases h
      simp [hx]
    · simp only [findColIdx, if_neg hx] at h
      cases hfx : findColIdx c xs with
      | none => rw [hfx] at h; cases h
      | some i0 =>
        rw [hfx] at h
        have h2 : i0 + 1 = i := by simpa using h
        subst h2
        simpa using ih i0 hfx

/-! ## Lemmas about `lastOwner` -/

theorem lastOwner_eq_none (c : String) (ds : List (String × DataFrame))
    (h : ∀ q ∈ ds, c ∉ q.2.cols) : lastOwner c ds = none := by
  induction ds with
  | nil => rfl
  | cons nd rest ih =>
    simp only [lastOwner, ih (fun q hq => h q (List.mem_cons_of_mem nd hq))]
    rw [if_neg (fun hin => h nd (List.mem_cons_self nd rest) hin.1)]

theorem lastOwner_eq_of_last (c : String) (ds : List (String × DataFrame))
    (j : Nat) (p : String × DataFrame)
    (hj : ds[j]? = some p) (hc : c ∈ p.2.cols) (hex : c ∉ exclude_cols)
    (hafter : ∀ k, j < k → ∀ q, ds[k]? = some q → c ∉ q.2.cols) :
    lastOwner c ds = some p.1 := by
  induction ds generalizing j with
  | nil => simp at hj
  | cons nd rest ih =>
    cases j with
    | zero =>
      have hnd : nd = p := by
        simp only [List.getElem?_cons_zero] at hj
        cases hj
        rfl
      subst hnd
      have hrest : lastOwner c rest = none := by
        apply lastOwner_eq_none
        intro q hq
        rcases List.getElem?_of_mem hq with ⟨k, hk⟩
        exact hafter (k + 1) (Nat.succ_pos k) q (by simpa using hk)
      simp only [lastOwner, hrest]
      rw [if_pos ⟨hc, hex⟩]
    | succ j0 =>
      have hj' : rest[j0]? = some p := by simpa using hj
      have hrest := ih j0 hj'
        (fun k hk q hkq => hafter (k + 1) (by omega) q (by simpa using hkq))
      simp only [lastOwner, hrest]

theorem lastOwner_isSome_of_mem (c : String) (ds : List (String × DataFrame))
    (p : String × DataFrame) (hp : p ∈ ds) (hc : c ∈ p.2.cols)
    (hex : c ∉ exclude_cols) : (lastOwner c ds).isSome = true := by
  induction ds with
  | nil => simp at hp
  | cons nd rest ih =>
    rcases List.mem_cons.mp hp with hp | hp
    · subst hp
      cases hlo : lastOwner c rest with
      | some n => simp [lastOwner, hlo]
      | none =>
        simp only [lastOwner, hlo]
        rw [if_pos ⟨hc, hex⟩]
        rfl
    · have hsome := ih hp
      cases hlo : lastOwner c rest with
      | some n => simp [lastOwner, hlo]
      | none => rw [hlo] at hsome; cases hsome

theorem lastOwner_none_of_reserved (c : String) (ds : List (String × DataFrame))
    (hex : c ∈ exclude_cols) : lastOwner c ds = none := by
  induction ds with
  | nil => rfl
  | cons nd rest ih =>
    simp only [lastOwner, ih]
    rw [if_neg (fun h => h.2 hex)]

theorem lastOwner_mem (c : String) (ds : List (String × DataFrame)) (n : String)
    (h : lastOwner c ds = some n) : ∃ df, (n, df) ∈ ds := by
  induction ds with
  | nil => cases h
  | cons nd rest ih =>
    cases hlo : lastOwner c rest with
    | some n0 =>
      simp only [lastOwner, hlo] at h
      cases h
      rcases ih hlo with ⟨df, hdf⟩
      exact ⟨df, List.mem_cons_of_mem nd hdf⟩
    | none =>
      simp only [lastOwner, hlo] at h
      by_cases hin : c ∈ nd.2.cols ∧ c ∉ exclude_cols
      · rw [if_pos hin] at h
        cases h
        exact ⟨nd.2, by simp⟩
      · rw [if_neg hin] at h
        cases h

/-! ## Lemmas about timestamp coercion -/

theorem to_datetimeCol_length (cells : List Cell) (ts : List Timestamp)
    (h : to_datetimeCol cells = .ok ts) : ts.length = cells.length := by
  induction cells generalizing ts with
  | nil =>
    simp only [to_datetimeCol] at h
    cases h
    rfl
  | cons c rest ih =>
    cases hc : to_datetimeCell c with
    | error e0 =>
      cases hr : to_datetimeCol rest with
      | error e1 => simp [to_datetimeCol, hc, hr] at h
      | ok ts0 => simp [to_datetimeCol, hc, hr] at h
    | ok t =>
      cases hr : to_datetimeCol rest with
      | error e1 => simp [to_datetimeCol, hc, hr] at h
      | ok ts0 =>
        simp only [to_datetimeCol, hc, hr] at h
        cases h
        simp [ih ts0 hr]

theorem to_datetimeCol_error_of_bad (cells : List Cell)
    (hbad : ∃ c ∈ cells, ∃ s0, c = Cell.str s0) :
    ∃ msg, to_datetimeCol cells = .error msg := by
  induction cells with
  | nil => simp at hbad
  | cons c rest ih =>
    rcases hbad with ⟨c0, hc0, s0, hs0⟩
    rcases List.mem_cons.mp hc0 with hc0 | hc0
    · subst hc0
      subst hs0
      refine ⟨"to_datetime: unparseable value", ?_⟩
      simp only [to_datetimeCol, to_datetimeCell]
    · rcases ih ⟨c0, hc0, s0, hs0⟩ with ⟨msg, hmsg⟩
      simp only [to_datetimeCol, hmsg]
      cases hc : to_datetimeCell c with
      | error e0 => exact ⟨e0, rfl⟩
      | ok t => exact ⟨msg, rfl⟩

theorem coerceCol_error_of_bad (df : DataFrame) (c : String) (i : Nat)
    (hi : findColIdx c df.cols = some i)
    (hbad : ∃ r ∈ df.rows, ∃ s0, cellAt i r = Cell.str s0) :
    ∃ msg, coerceCol df c = .error msg := by
  have hunf : coerceCol df c =
      match to_datetimeCol (df.rows.map (cellAt i)) with
      | .error e0 => .error e0
      | .ok ts =>
        .ok ⟨df.cols, List.zipWith (fun r t => r.set i (Cell.ts t)) df.rows ts⟩ := by
    unfold coerceCol
    rw [hi]
  have hbad2 : ∃ cc ∈ df.rows.map (cellAt i), ∃ s0, cc = Cell.str s0 := by
    rcases hbad with ⟨r, hr, s0, hs0⟩
    exact ⟨cellAt i r, List.mem_map_of_mem (cellAt i) hr, s0, hs0⟩
  rcases to_datetimeCol_error_of_bad _ hbad2 with ⟨msg, hmsg⟩
  refine ⟨msg, ?_⟩
  rw [hunf, hmsg]

theorem coerceCol_ok (df df' : DataFrame) (c : String)
    (h : coerceCol df c = .ok df') :
    ∃ i, findColIdx c df.cols = some i ∧ df'.cols = df.cols ∧
      df'.rows.length = df.rows.length ∧
      ∀ k, k < df.rows.length →
        ∃ r t, df.rows[k]? = some r ∧ df'.rows[k]? = some (r.set i (Cell.ts t)) := by
  unfold coerceCol at h
  split at h
  · exact absurd h (by simp)
  · rename_i i hi
    split at h
    · exact absurd h (by simp)
    · rename_i ts hts
      have hdf' : df' = ⟨df.cols, List.zipWith (fun r t => r.set i (.ts t)) df.rows ts⟩ := by
        cases h
        rfl
      subst hdf'
      have hlen : ts.length = df.rows.length := by
        have := to_datetimeCol_length _ _ hts
        simpa using this
      refine ⟨i, hi, rfl, ?_, ?_⟩
      · simp [List.length_zipWith, hlen]
      · intro k hk
        obtain ⟨r, hkr⟩ : ∃ r, df.rows[k]? = some r := by
          rw [List.getElem?_eq_getElem hk]
          exact ⟨_, rfl⟩
        obtain ⟨t, hkt⟩ : ∃ t, ts[k]? = some t := by
          rw [List.getElem?_eq_getElem (show k < ts.length by omega)]
          exact ⟨_, rfl⟩
        refine ⟨r, t, hkr, ?_⟩
        rw [List.getElem?_zipWith, hkr, hkt]

/-- Cells in other column positions are untouched by a column write. -/
theorem cellAt_set_ne (i j : Nat) (r : List Cell) (x : Cell) (hij : j ≠ i) :
    cellAt i (r.set j x) = cellAt i r := by
  simp [cellAt, List.getD_eq_getElem?_getD, List.getElem?_set_ne hij]

theorem findColIdx_ne (cols : List String) (c1 c2 : String) (i1 i2 : Nat)
    (h1 : findColIdx c1 cols = some i1) (h2 : findColIdx c2 cols = some i2)
    (hc : c1 ≠ c2) : i1 ≠ i2 := by
  intro hi
  subst hi
  have e1 := findColIdx_some c1 cols i1 h1
  have e2 := findColIdx_some c2 cols i1 h2
  rw [e1] at e2
  cases e2
  exact hc rfl

/-! ## Object-store model of the query pipeline (frame property)

Python variables hold references to heap objects.  The Table Store
(`datasets`) maps dataset names to heap references; `datasets[name].copy()`
allocates a fresh object, and the two `df[...] = pd.to_datetime(...)`
statements mutate that fresh object in place.  `df = df[mask]` only rebinds
the local variable.  We model the heap as a list of `DataFrame`s indexed by
allocation order. -/

/-- The dataset collection as read from a name-to-reference store. -/
def storeDatasets (names : List (String × Nat)) (heap : List DataFrame) :
    List (String × DataFrame) :=
  names.filterMap (fun p => (heap[p.2]?).map (fun df => (p.1, df)))

/-- The statement-by-statement query path of app.py lines 174-251 with the
object store explicit: resolve, copy (allocate), coerce `DATETIME` in place,
coerce `DATE` in place, filter (a rebinding), and compute both exports of the
filtered view.  Returns the final heap next to the outcome. -/
def queryPathH (names : List (String × Nat)) (heap : List DataFrame)
    (m : String) (s e : Int) :
    List DataFrame × Except String (DataFrame × Workbook × List Char) :=
  match dictFind (measurement_map (storeDatasets names heap)) m with
  | none => (heap, .error "KeyError: measurement")
  | some name =>
    match (names.find? (fun p => p.1 = name)).map (fun p => p.2) with
    | none => (heap, .error "KeyError: dataset")
    | some ref =>
      match heap[ref]? with
      | none => (heap, .error "dangling reference")
      | some df0 =>
        match coerceCol df0 "DATETIME" with
        | .error e0 => (heap ++ [df0], .error e0)
        | .ok df1 =>
          match coerceCol df1 "DATE" with
          | .error e0 => ((heap ++ [df0]).set heap.length df1, .error e0)
          | .ok df2 =>
            match filterByDate df2 s e with
            | .error e0 => (((heap ++ [df0]).set heap.length df1).set heap.length df2, .error e0)
            | .ok v =>
              (((heap ++ [df0]).set heap.length df1).set heap.length df2,
                .ok (v, to_excel v, to_csv v))

/-- The pipeline on a user selection: the first selected measurement drives
the query (app.py line 175 uses `selected_measures[0]`). -/
def fullPipelineH (names : List (String × Nat)) (heap : List DataFrame)
    (selected : List String) (s e : Int) :
    List DataFrame × Except String (DataFrame × Workbook × List Char) :=
  match selected with
  | [] => (heap, .error "no measurement selected")
  | m :: _ => queryPathH names heap m s e

theorem heap_extend_preserves (heap : List DataFrame) (df0 : DataFrame) (i : Nat)
    (hi : i < heap.length) : (heap ++ [df0])[i]? = heap[i]? :=
  List.getElem?_append_left hi

theorem heap_write_fresh_preserves (heap : List DataFrame) (df0 df1 : DataFrame)
    (i : Nat) (hi : i < heap.length) :
    ((heap ++ [df0]).set heap.length df1)[i]? = heap[i]? := by
  rw [List.getElem?_set_ne (by omega)]
  exact heap_extend_preserves heap df0 i hi

theorem heap_write_fresh_twice_preserves (heap : List DataFrame)
    (df0 df1 df2 : DataFrame) (i : Nat) (hi : i < heap.length) :
    (((heap ++ [df0]).set heap.length df1).set heap.length df2)[i]? = heap[i]? := by
  rw [List.getElem?_set_ne (by omega)]
  exact heap_write_fresh_preserves heap df0 df1 i hi

end EncapOven

namespace EncapOven

theorem pfa_nil (b : Bool) (acc : List Char) :
    parseFieldsAux b [] acc = [acc.reverse] := by
  conv_lhs => unfold parseFieldsAux
  cases b <;> rfl

theorem pfa_comma (rest acc : List Char) :
    parseFieldsAux false (',' :: rest) acc = acc.reverse :: parseFieldsAux false rest [] := by
  conv_lhs => unfold parseFieldsAux
  simp

theorem pfa_quote_open (rest acc : List Char) :
    parseFieldsAux false ('"' :: rest) acc = parseFieldsAux true rest acc := by
  conv_lhs => unfold parseFieldsAux
  simp

theorem pfa_raw (ch : Char) (rest acc : List Char) (h1 : ch ≠ ',') (h2 : ch ≠ '"') :
    parseFieldsAux false (ch :: rest) acc = parseFieldsAux false rest (ch :: acc) := by
  conv_lhs => unfold parseFieldsAux
  simp [h1, h2]

theorem pfa_q_escaped (rest2 acc : List Char) :
    parseFieldsAux true ('"' :: '"' :: rest2) acc = parseFieldsAux true rest2 ('"' :: acc) := by
  conv_lhs => unfold parseFieldsAux
  simp

theorem pfa_q_close (rest acc : List Char) (h : ∀ st, rest ≠ '"' :: st) :
    parseFieldsAux true ('"' :: rest) acc = parseFieldsAux false rest acc := by
  cases rest with
  | nil =>
    conv_lhs => unfold parseFieldsAux
    simp
  | cons r rs =>
    have hr : r ≠ '"' := fun hh => h rs (by rw [hh])
    conv_lhs => unfold parseFieldsAux
    simp [hr]

theorem pfa_q_other (ch : Char) (rest acc : List Char) (h : ch ≠ '"') :
    parseFieldsAux true (ch :: rest) acc = parseFieldsAux true rest (ch :: acc) := by
  conv_lhs => unfold parseFieldsAux
  simp [h]

end EncapOven

namespace EncapOven

theorem not_special_of_not_needsQuote (f : List Char) (hq : needsQuote f = false) :
    ∀ ch ∈ f, ch ≠ ',' ∧ ch ≠ '"' := by
  intro ch hch
  have h2 := List.any_eq_false.mp hq ch hch
  simp at h2
  tauto

theorem pfa_raw_run (f rest acc : List Char)
    (hf : ∀ ch ∈ f, ch ≠ ',' ∧ ch ≠ '"') :
    parseFieldsAux false (f ++ rest) acc = parseFieldsAux false rest (f.reverse ++ acc) := by
  induction f generalizing acc with
  | nil => simp
  | cons ch f2 ih =>
    have hch := hf ch (List.mem_cons_self ch f2)
    rw [List.cons_append, pfa_raw ch _ _ hch.1 hch.2,
      ih _ (fun c hc => hf c (List.mem_cons_of_mem ch hc))]
    simp [List.append_assoc]

theorem pfa_quoted_run (f rest acc : List Char)
    (hrest : ∀ st, rest ≠ '"' :: st) :
    parseFieldsAux true (escapeQuotes f ++ '"' :: rest) acc =
      parseFieldsAux false rest (f.reverse ++ acc) := by
  induction f generalizing acc with
  | nil =>
    simp only [escapeQuotes, List.nil_append]
    rw [pfa_q_close _ _ hrest]
    simp
  | cons ch f2 ih =>
    by_cases hch : ch = '"'
    · subst hch
      have he : escapeQuotes ('"' :: f2) = '"' :: '"' :: escapeQuotes f2 := by
        simp [escapeQuotes]
      rw [he, List.cons_append, List.cons_append, pfa_q_escaped, ih _]
      simp [List.append_assoc]
    · have he : escapeQuotes (ch :: f2) = ch :: escapeQuotes f2 := by
        simp [escapeQuotes, hch]
      rw [he, List.cons_append, pfa_q_other ch _ _ hch, ih _]
      simp [List.append_assoc]

theorem pfa_field (f rest acc : List Char)
    (hrest : rest = [] ∨ ∃ st, rest = ',' :: st) :
    parseFieldsAux false (quoteMinimal f ++ rest) acc =
      parseFieldsAux false rest (f.reverse ++ acc) := by
  unfold quoteMinimal
  by_cases hq : needsQuote f = true
  · rw [if_pos hq]
    have hassoc : ('"' :: (escapeQuotes f ++ ['"'])) ++ rest =
        '"' :: (escapeQuotes f ++ '"' :: rest) := by simp
    rw [hassoc, pfa_quote_open, pfa_quoted_run]
    intro st hst
    rcases hrest with h0 | ⟨st2, h0⟩ <;> subst h0 <;> simp at hst
  · rw [if_neg hq]
    exact pfa_raw_run f rest acc
      (not_special_of_not_needsQuote f (Bool.eq_false_iff.mpr hq))

theorem parseLine_csvLine (f : List Char) (fs : List (List Char)) :
    parseLine (csvLine (f :: fs)) = f :: fs := by
  induction fs generalizing f with
  | nil =>
    simp only [parseLine, csvLine, List.map_cons, List.map_nil]
    have h1 : intercalateComma [quoteMinimal f] = quoteMinimal f ++ [] := by
      simp [intercalateComma]
    rw [h1, pfa_field f [] [] (Or.inl rfl), pfa_nil]
    simp
  | cons g fs2 ih =>
    simp only [parseLine, csvLine, List.map_cons]
    have h1 : intercalateComma
        (quoteMinimal f :: quoteMinimal g :: fs2.map quoteMinimal) =
        quoteMinimal f ++ ',' :: intercalateComma (quoteMinimal g :: fs2.map quoteMinimal) := by
      simp [intercalateComma]
    rw [h1, pfa_field f _ [] (Or.inr ⟨_, rfl⟩), pfa_comma]
    have h2 := ih g
    simp only [parseLine, csvLine, List.map_cons] at h2
    simp [h2]

end EncapOven

namespace EncapOven

theorem mem_escapeQuotes (f : List Char) (ch : Char) (h : ch ∈ escapeQuotes f) :
    ch ∈ f ∨ ch = '"' := by
  induction f with
  | nil => simp [escapeQuotes] at h
  | cons c rest ih =>
    by_cases hc : c = '"'
    · subst hc
      simp only [escapeQuotes, if_pos rfl] at h
      rcases List.mem_cons.mp h with h | h
      · exact Or.inr h
      · rcases List.mem_cons.mp h with h | h
        · exact Or.inr h
        · rcases ih h with h | h
          · exact Or.inl (List.mem_cons_of_mem _ h)
          · exact Or.inr h
    · simp only [escapeQuotes, if_neg hc] at h
      rcases List.mem_cons.mp h with h | h
      · exact Or.inl (h ▸ List.mem_cons_self c rest)
      · rcases ih h with h | h
        · exact Or.inl (List.mem_cons_of_mem _ h)
        · exact Or.inr h

theorem quoteMinimal_no_newline (f : List Char) (h : '\n' ∉ f) :
    '\n' ∉ quoteMinimal f := by
  unfold quoteMinimal
  split
  · intro hmem
    rcases List.mem_cons.mp hmem with hm | hm
    · simp at hm
    · rcases List.mem_append.mp hm with hm | hm
      · rcases mem_escapeQuotes f _ hm with hm | hm
        · exact h hm
        · simp at hm
      · simp at hm
  · exact h

theorem csvLine_no_newline (fs : List (List Char)) (h : ∀ f ∈ fs, '\n' ∉ f) :
    '\n' ∉ csvLine fs := by
  unfold csvLine
  intro hmem
  induction fs with
  | nil => simp [intercalateComma] at hmem
  | cons f rest ih =>
    cases rest with
    | nil =>
      simp only [List.map_cons, List.map_nil, intercalateComma] at hmem
      exact quoteMinimal_no_newline f (h f (List.mem_cons_self f [])) hmem
    | cons g rest2 =>
      simp only [List.map_cons, intercalateComma] at hmem
      rcases List.mem_append.mp hmem with hm | hm
      · exact quoteMinimal_no_newline f (h f (List.mem_cons_self f _)) hm
      · rcases List.mem_cons.mp hm with hm | hm
        · simp at hm
        · apply ih (fun f2 hf2 => h f2 (List.mem_cons_of_mem f hf2))
          simpa [intercalateComma] using hm

theorem splitOnChar_append_cons (c : Char) (f rest : List Char) (h : c ∉ f) :
    splitOnChar c (f ++ c :: rest) = f :: splitOnChar c rest := by
  induction f with
  | nil =>
    simp [splitOnChar]
  | cons x xs ih =>
    have hx : x ≠ c := fun hh => h (hh ▸ List.mem_cons_self x xs)
    have hxs : c ∉ xs := fun hh => h (List.mem_cons_of_mem x hh)
    simp [splitOnChar, hx, ih hxs]

theorem splitOnChar_flatten_lines (lines : List (List Char))
    (h : ∀ l ∈ lines, '\n' ∉ l) :
    splitOnChar '\n' ((lines.map (fun l => l ++ ['\n'])).flatten) = lines ++ [[]] := by
  induction lines with
  | nil => rfl
  | cons l ls ih =>
    have hassoc : ((l :: ls).map (fun l => l ++ ['\n'])).flatten =
        l ++ '\n' :: (ls.map (fun l => l ++ ['\n'])).flatten := by
      simp
    rw [hassoc, splitOnChar_append_cons '\n' l _ (h l (List.mem_cons_self l ls)),
      ih (fun l2 hl2 => h l2 (List.mem_cons_of_mem l hl2))]
    rfl

theorem parseCSV_to_csv (df : DataFrame)
    (hcols : df.cols ≠ [])
    (hrows : ∀ r ∈ df.rows, r ≠ [])
    (hnlH : ∀ name ∈ df.cols, '\n' ∉ name.data)
    (hnlC : ∀ r ∈ df.rows, ∀ cell ∈ r, '\n' ∉ renderCell cell) :
    parseCSV (to_csv df) =
      (df.cols.map String.data) :: df.rows.map (fun r => r.map renderCell) := by
  have hto : to_csv df =
      ((((df.cols.map String.data) :: df.rows.map (fun r => r.map renderCell)).map
        csvLine).map (fun l => l ++ ['\n'])).flatten := by
    simp [to_csv, List.map_map, Function.comp_def]
  have hfieldsnl : ∀ fls ∈ (df.cols.map String.data) ::
      df.rows.map (fun r => r.map renderCell), ∀ f ∈ fls, '\n' ∉ f := by
    intro fls hfls f hf
    rcases List.mem_cons.mp hfls with hfls | hfls
    · subst hfls
      rcases List.mem_map.mp hf with ⟨name, hname, hfe⟩
      exact hfe ▸ hnlH name hname
    · rcases List.mem_map.mp hfls with ⟨r, hr, hre⟩
      subst hre
      rcases List.mem_map.mp hf with ⟨cell, hcell, hfe⟩
      exact hfe ▸ hnlC r hr cell hcell
  have hlinesnl : ∀ l ∈ (((df.cols.map String.data) ::
      df.rows.map (fun r => r.map renderCell)).map csvLine), '\n' ∉ l := by
    intro l hl
    rcases List.mem_map.mp hl with ⟨fls, hfls, hle⟩
    exact hle ▸ csvLine_no_newline fls (hfieldsnl fls hfls)
  rw [parseCSV, hto, splitOnChar_flatten_lines _ hlinesnl, List.dropLast_concat,
    List.map_map]
  have hid : ∀ fls ∈ (df.cols.map String.data) ::
      df.rows.map (fun r => r.map renderCell), (parseLine ∘ csvLine) fls = fls := by
    intro fls hfls
    have hne : fls ≠ [] := by
      rcases List.mem_cons.mp hfls with hfls | hfls
      · subst hfls
        simpa using hcols
      · rcases List.mem_map.mp hfls with ⟨r, hr, hre⟩
        subst hre
        simpa using hrows r hr
    cases fls with
    | nil => exact absurd rfl hne
    | cons f fs => exact parseLine_csvLine f fs
  rw [List.map_congr_left hid]
  simp

end EncapOven

namespace EncapOven

/-! ## Concrete sample data (used by the witnesses) -/

/-- A sample dataset in the shape of the loaded sheets: three rows spanning
days 1..3. -/
def sampleDF : DataFrame :=
  ⟨["DATETIME", "DATE", "OvenA", "OvenB", "LCL", "UCL"],
   [[.ts ⟨1, 10⟩, .ts ⟨1, 0⟩, .num 100, .num 101, .num 90, .num 110],
    [.ts ⟨2, 10⟩, .ts ⟨2, 5⟩, .num 102, .num 103, .num 90, .num 110],
    [.ts ⟨3, 10⟩, .ts ⟨3, 0⟩, .num 104, .num 105, .num 90, .num 110]]⟩

/-- A second sample dataset sharing the column name `OvenA`. -/
def sampleDF2 : DataFrame :=
  ⟨["DATETIME", "DATE", "OvenA", "OvenC"],
   [[.ts ⟨7, 0⟩, .ts ⟨7, 0⟩, .num 50, .num 51]]⟩

/-- A sample loaded collection, in load order. -/
def sampleStore : List (String × DataFrame) :=
  [("dataset1", sampleDF), ("dataset2", sampleDF2)]

/-- The filtered view of `sampleDF` for the day range [2, 3]. -/
def sampleView : DataFrame :=
  ⟨["DATETIME", "DATE", "OvenA", "OvenB", "LCL", "UCL"],
   [[.ts ⟨2, 10⟩, .ts ⟨2, 5⟩, .num 102, .num 103, .num 90, .num 110],
    [.ts ⟨3, 10⟩, .ts ⟨3, 0⟩, .num 104, .num 105, .num 90, .num 110]]⟩

/-- The second row of `sampleDF` (day 2). -/
def sampleRow2 : List Cell :=
  [.ts ⟨2, 10⟩, .ts ⟨2, 5⟩, .num 102, .num 103, .num 90, .num 110]

/-- A dataset whose `DATETIME` column holds an unparseable raw-text value. -/
def badDF : DataFrame :=
  ⟨["DATETIME", "DATE", "M"], [[.str "not a date", .ts ⟨1, 0⟩, .num 5]]⟩

/-- A collection containing only the bad dataset. -/
def badStore : List (String × DataFrame) := [("d1", badDF)]

/-- A small view with text fields exercising csv quoting. -/
def csvSample : DataFrame :=
  ⟨["A", "B"], [[Cell.str "he,llo", Cell.str "wo\"rld"], [Cell.str "x", Cell.str "y"]]⟩

/-- Unparseable values in a named column of a dataset. -/
def colHasBad (df : DataFrame) (c : String) : Prop :=
  ∃ i, findColIdx c df.cols = some i ∧ ∃ r ∈ df.rows, ∃ s0, cellAt i r = Cell.str s0

/-! ## The claims -/

/-- Claim C1 (range filter correctness): whenever the range filter of line 199
succeeds, a row is in the Filtered View iff it is a row of the queried
dataset whose `DATE` cell is a timestamp with calendar day in the closed
interval `[s, e]`; the time-of-day component is discarded, and every excluded
row fails the predicate. -/
theorem range_filter_correct (df view : DataFrame) (s e : Int) (i : Nat)
    (hi : findColIdx "DATE" df.cols = some i)
    (hq : filterByDate df s e = .ok view) :
    ∀ r, r ∈ view.rows ↔
      (r ∈ df.rows ∧ ∃ t, cellAt i r = Cell.ts t ∧ s ≤ t.day ∧ t.day ≤ e) := by
  intro r
  rcases filterByDate_ok df view s e i hq hi with ⟨-, hrows⟩
  rw [hrows, List.mem_filter]
  constructor
  · rintro ⟨hmem, hpred⟩
    refine ⟨hmem, ?_⟩
    unfold rowInRange at hpred
    cases hcell : cellAt i r with
    | ts t =>
      rw [hcell] at hpred
      simp at hpred
      exact ⟨t, rfl, hpred.1, hpred.2⟩
    | num v => rw [hcell] at hpred; cases hpred
    | str s0 => rw [hcell] at hpred; cases hpred
  · rintro ⟨hmem, t, hcell, h1, h2⟩
    refine ⟨hmem, ?_⟩
    unfold rowInRange
    rw [hcell]
    simp [h1, h2]

theorem range_filter_correct_witness :
    sampleRow2 ∈ sampleView.rows ↔
      (sampleRow2 ∈ sampleDF.rows ∧
        ∃ t, cellAt 1 sampleRow2 = Cell.ts t ∧ 2 ≤ t.day ∧ t.day ≤ 3) :=
  range_filter_correct sampleDF sampleView 2 3 1 (by decide) rfl sampleRow2

/-- Claim C2 (last-write-wins): when a non-reserved column name occurs in the
datasets at positions `i < j` of the load order and in no later dataset, the
measurement index maps it to the name of the dataset at position `j`; the
index construction raises no error for the duplicate. -/
theorem index_last_write_wins (datasets : List (String × DataFrame)) (c : String)
    (i j : Nat) (pI pJ : String × DataFrame)
    (hij : i < j) (hi : datasets[i]? = some pI) (hj : datasets[j]? = some pJ)
    (hcI : c ∈ pI.2.cols) (hcJ : c ∈ pJ.2.cols) (hex : c ∉ exclude_cols)
    (hlast : ∀ k, j < k → ∀ q, datasets[k]? = some q → c ∉ q.2.cols) :
    dictFind (measurement_map datasets) c = some pJ.1 := by
  rw [measurement_map_spec]
  exact lastOwner_eq_of_last c datasets j pJ hj hcJ hex hlast

theorem index_last_write_wins_witness :
    dictFind (measurement_map sampleStore) "OvenA" = some "dataset2" :=
  index_last_write_wins sampleStore "OvenA" 0 1
    ("dataset1", sampleDF) ("dataset2", sampleDF2)
    (by decide) (by decide) (by decide) (by decide) (by decide) (by decide)
    (by
      intro k hk q hq
      have hlen : sampleStore.length = 2 := rfl
      rw [List.getElem?_eq_none (by omega)] at hq
      cases hq)

/-- Claim C3 (index completeness and reserved exclusion): after index
construction, every non-reserved column of every loaded dataset is a key of
the measurement index, and no reserved name is ever a key. -/
theorem index_complete_reserved_excluded (datasets : List (String × DataFrame)) :
    (∀ p ∈ datasets, ∀ c ∈ p.2.cols, c ∉ exclude_cols →
      (dictFind (measurement_map datasets) c).isSome = true) ∧
    (∀ c ∈ exclude_cols, dictFind (measurement_map datasets) c = none) := by
  constructor
  · intro p hp c hc hex
    rw [measurement_map_spec]
    exact lastOwner_isSome_of_mem c datasets p hp hc hex
  · intro c hc
    rw [measurement_map_spec]
    exact lastOwner_none_of_reserved c datasets hc

theorem index_complete_reserved_excluded_witness :
    (dictFind (measurement_map sampleStore) "OvenB").isSome = true ∧
      dictFind (measurement_map sampleStore) "DATE" = none :=
  ⟨(index_complete_reserved_excluded sampleStore).1 ("dataset1", sampleDF)
      (by decide) "OvenB" (by decide) (by decide),
    (index_complete_reserved_excluded sampleStore).2 "DATE" (by decide)⟩

/-- Claim C4 (order preservation): the Filtered View's rows are exactly the
filter of the source rows by the date predicate — the subsequence of the
source row order matching the predicate — with no re-sort. -/
theorem filter_preserves_order (df view : DataFrame) (s e : Int) (i : Nat)
    (hi : findColIdx "DATE" df.cols = some i)
    (hq : filterByDate df s e = .ok view) :
    view.rows = df.rows.filter (rowInRange i s e) ∧ view.rows.Sublist df.rows := by
  rcases filterByDate_ok df view s e i hq hi with ⟨-, hrows⟩
  exact ⟨hrows, hrows ▸ List.filter_sublist df.rows⟩

theorem filter_preserves_order_witness :
    sampleView.rows = sampleDF.rows.filter (rowInRange 1 2 3) ∧
      sampleView.rows.Sublist sampleDF.rows :=
  filter_preserves_order sampleDF sampleView 2 3 1 (by decide) rfl

/-- Claim C5 (empty range law): when no row satisfies the date predicate
(in particular whenever start > end), the filter still succeeds with a
zero-row view, and both exports produce header-only output: the workbook
carries the column names and no data rows, and the csv text is exactly the
header line. -/
theorem empty_range_law (df view : DataFrame) (s e : Int) (i : Nat)
    (hi : findColIdx "DATE" df.cols = some i)
    (hq : filterByDate df s e = .ok view)
    (hempty : s > e ∨ ∀ r ∈ df.rows, rowInRange i s e r = false) :
    view.rows = [] ∧ to_excel view = ⟨"FilteredData", df.cols, []⟩ ∧
      to_csv view = csvLine (df.cols.map String.data) ++ ['\n'] := by
  rcases filterByDate_ok df view s e i hq hi with ⟨hcols, hrows⟩
  have hnone : ∀ r ∈ df.rows, rowInRange i s e r = false := by
    rcases hempty with hse | h
    · intro r hr
      unfold rowInRange
      cases cellAt i r with
      | ts t =>
        simp only [Bool.and_eq_false_iff, decide_eq_false_iff_not]
        by_cases h1 : s ≤ t.day
        · exact Or.inr (by omega)
        · exact Or.inl h1
      | num v => rfl
      | str s0 => rfl
    · exact h
  have hempty2 : view.rows = [] := by
    rw [hrows]
    exact List.filter_eq_nil_iff.mpr (fun a ha => by simp [hnone a ha])
  refine ⟨hempty2, ?_, ?_⟩
  · simp [to_excel, hcols, hempty2]
  · simp [to_csv, hcols, hempty2]

theorem empty_range_law_witness :
    DataFrame.mk sampleDF.cols [] = DataFrame.mk sampleDF.cols [] ∧
      ((DataFrame.mk sampleDF.cols []).rows = [] ∧
        to_excel ⟨sampleDF.cols, []⟩ = ⟨"FilteredData", sampleDF.cols, []⟩ ∧
        to_csv ⟨sampleDF.cols, []⟩ = csvLine (sampleDF.cols.map String.data) ++ ['\n']) :=
  ⟨rfl, empty_range_law sampleDF ⟨sampleDF.cols, []⟩ 3 2 1 (by decide) rfl
    (Or.inl (by decide))⟩

/-- Claim C6 (export determinism and idempotence): the export serializers are
pure functions of the view, so two invocations on an unchanged view produce
identical workbook content and identical csv bytes. -/
theorem export_deterministic (v w : DataFrame) (h : v = w) :
    to_excel v = to_excel w ∧ to_csv v = to_csv w := by
  subst h
  exact ⟨rfl, rfl⟩

theorem export_deterministic_witness :
    to_excel sampleView = to_excel sampleView ∧ to_csv sampleView = to_csv sampleView :=
  export_deterministic sampleView sampleView rfl

/-- Claim C7 (delimited-text round-trip): parsing the csv export of a view
whose column names and rendered field values contain no line break (the
one-line-per-row format premise), with nonempty schema and rows, recovers
exactly the column names in order and every row's field strings in order. -/
theorem csv_round_trip (df : DataFrame)
    (hcols : df.cols ≠ [])
    (hrows : ∀ r ∈ df.rows, r ≠ [])
    (hnlH : ∀ name ∈ df.cols, '\n' ∉ name.data)
    (hnlC : ∀ r ∈ df.rows, ∀ cell ∈ r, '\n' ∉ renderCell cell) :
    parseCSV (to_csv df) =
      (df.cols.map String.data) :: df.rows.map (fun r => r.map renderCell) :=
  parseCSV_to_csv df hcols hrows hnlH hnlC

theorem csv_round_trip_witness :
    parseCSV (to_csv csvSample) =
      (csvSample.cols.map String.data) :: csvSample.rows.map (fun r => r.map renderCell) :=
  csv_round_trip csvSample (by decide) (by decide) (by decide) (by decide)

/-- Claim C8 (coercion fails loudly): if the resolved dataset's `DATETIME` or
`DATE` column contains a value `pd.to_datetime` cannot parse, the query path
returns an explicit error — it never returns a view built from a partially
coerced dataset. -/
theorem query_errors_on_unparseable (datasets : List (String × DataFrame))
    (m : String) (ms : List String) (name : String) (df : DataFrame) (s e : Int)
    (hm : dictFind (measurement_map datasets) m = some name)
    (hs : storeFind datasets name = some df)
    (hbad : colHasBad df "DATETIME" ∨ colHasBad df "DATE") :
    ∃ msg, runQuery datasets (m :: ms) s e = .error msg := by
  have hunf : runQuery datasets (m :: ms) s e =
      match coerceCol df "DATETIME" with
      | .error e0 => .error e0
      | .ok df1 =>
        match coerceCol df1 "DATE" with
        | .error e0 => .error e0
        | .ok df2 => filterByDate df2 s e := by
    simp only [runQuery, hm, hs]
  rcases hbad with hbad | hbad
  · rcases hbad with ⟨i, hi, hbadrows⟩
    rcases coerceCol_error_of_bad df "DATETIME" i hi hbadrows with ⟨msg, hmsg⟩
    exact ⟨msg, by rw [hunf, hmsg]⟩
  · cases hdt : coerceCol df "DATETIME" with
    | error e0 => exact ⟨e0, by rw [hunf, hdt]⟩
    | ok df1 =>
      rcases hbad with ⟨i, hi, r, hr, s0, hcell⟩
      rcases coerceCol_ok df df1 "DATETIME" hdt with ⟨jdt, hjdt, hcols1, hlen1, hrows1⟩
      have hne : jdt ≠ i := findColIdx_ne df.cols "DATETIME" "DATE" jdt i hjdt hi (by decide)
      have hi1 : findColIdx "DATE" df1.cols = some i := by rw [hcols1]; exact hi
      rcases List.getElem?_of_mem hr with ⟨k, hk⟩
      have hklt : k < df.rows.length := by
        rcases List.getElem?_eq_some_iff.mp hk with ⟨hlt, -⟩
        exact hlt
      rcases hrows1 k hklt with ⟨r0, t, hr0, hr0set⟩
      have hrr0 : r0 = r := by
        rw [hk] at hr0
        cases hr0
        rfl
      subst hrr0
      have hmem1 : r0.set jdt (Cell.ts t) ∈ df1.rows :=
        List.mem_iff_getElem?.mpr ⟨k, hr0set⟩
      have hcell1 : cellAt i (r0.set jdt (Cell.ts t)) = Cell.str s0 := by
        rw [cellAt_set_ne i jdt _ _ hne]
        exact hcell
      rcases coerceCol_error_of_bad df1 "DATE" i hi1
        ⟨_, hmem1, s0, hcell1⟩ with ⟨msg, hmsg⟩
      refine ⟨msg, ?_⟩
      rw [hunf]
      simp only [hdt, hmsg]

theorem query_errors_on_unparseable_witness :
    ∃ msg, runQuery badStore ["M"] 0 9 = .error msg :=
  query_errors_on_unparseable badStore "M" [] "d1" badDF 0 9 (by decide) (by decide)
    (Or.inl ⟨0, by decide,
      [Cell.str "not a date", Cell.ts ⟨1, 0⟩, Cell.num 5], by decide,
      "not a date", by decide⟩)

/-- Claim C9 (Table Store immutability): running the whole query pipeline —
resolution, copy, in-place coercions on the copy, filtering and both exports
— leaves every previously allocated object of the store heap unchanged: the
coercion writes land only on the per-query copy. -/
theorem store_unchanged_by_query (names : List (String × Nat)) (heap : List DataFrame)
    (selected : List String) (s e : Int) (i : Nat) (hi : i < heap.length) :
    ((fullPipelineH names heap selected s e).1)[i]? = heap[i]? := by
  cases selected with
  | nil => rfl
  | cons m ms =>
    show ((queryPathH names heap m s e).1)[i]? = heap[i]?
    unfold queryPathH
    split
    · rfl
    · split
      · rfl
      · split
        · rfl
        · split
          · exact heap_extend_preserves heap _ i hi
          · split
            · exact heap_write_fresh_preserves heap _ _ i hi
            · split
              · exact heap_write_fresh_twice_preserves heap _ _ _ i hi
              · exact heap_write_fresh_twice_preserves heap _ _ _ i hi

theorem store_unchanged_by_query_witness :
    ((fullPipelineH [("dataset1", 0)] [sampleDF] ["OvenA"] 2 3).1)[0]? =
      [sampleDF][0]? :=
  store_unchanged_by_query [("dataset1", 0)] [sampleDF] ["OvenA"] 2 3 0 (by decide)

/-- Claim C10 (index values are valid dataset names): every successful lookup
in the measurement index yields the name of a dataset present in the loaded
collection, so the subsequent `datasets[dataset_name]` access succeeds. -/
theorem index_values_resolve (datasets : List (String × DataFrame)) (c n : String)
    (h : dictFind (measurement_map datasets) c = some n) :
    (storeFind datasets n).isSome = true := by
  rw [measurement_map_spec] at h
  rcases lastOwner_mem c datasets n h with ⟨df, hdf⟩
  have hsome : (datasets.find? (fun p => p.1 = n)).isSome = true :=
    List.find?_isSome.mpr ⟨(n, df), hdf, by simp⟩
  cases hf : datasets.find? (fun p => p.1 = n) with
  | none => rw [hf] at hsome; cases hsome
  | some p => simp [storeFind, hf]

theorem index_values_resolve_witness :
    (storeFind sampleStore "dataset1").isSome = true :=
  index_values_resolve sampleStore "OvenB" "dataset1" (by decide)

end EncapOven
